import Mathlib

/-
Verification of the batched subtitle voice-over editing pipeline
(`src/script.py`) and, for the components that the design document
describes but that are not part of `src/script.py` (the tiered
retry/splitting orchestrator with rate limiting and the line-numbered
reply parser of the other drafts), of models built from the design
document itself.

Part 1 embeds `process_srt` of `src/script.py`:
  * subtitle blocks are the dicts produced by `srt_to_json`
    (index / start / end / lines, with `lines` flattened to the list of
    line texts);
  * the decoded JSON reply of the model is a `JVal`;
  * the external `ollama.chat` call together with `json.loads` is an
    oracle `LLMResult`-valued function: the call can raise (`fail`),
    return undecodable text (`badJson`) or return a decoded value (`ok`).
-/

namespace SrtPipeline

/-- A JSON value as produced by `json.loads` (numbers restricted to
integers; no claim depends on floating point). -/
inductive JVal where
  | jnull : JVal
  | jbool : Bool → JVal
  | jnum : Int → JVal
  | jstr : String → JVal
  | jlist : List JVal → JVal
  | jdict : List (String × JVal) → JVal

/-- One subtitle block, as built by `srt_to_json`: the dict
`{"index": .., "start": .., "end": .., "lines": [{"text": ..}, ..]}`,
with the `lines` list of single-key dicts flattened to the list of the
line texts. -/
structure Block where
  index : Int
  start : String
  end_ : String
  lines : List String
deriving DecidableEq

mutual

/-- Python `str()` on a JSON-decoded value (used by `script.py` only in
the degenerate branch `block["lines"] = [{"text": str(new_text)}]`). -/
def pyStr : JVal → String
  | .jnull => "None"
  | .jbool true => "True"
  | .jbool false => "False"
  | .jnum n => toString n
  | .jstr s => s
  | .jlist l => "[" ++ String.intercalate ", " (pyStrList l) ++ "]"
  | .jdict kvs => "\x7b" ++ String.intercalate ", " (pyStrKVs kvs) ++ "\x7d"

/-- `str()` of the elements of a JSON list, in order. -/
def pyStrList : List JVal → List String
  | [] => []
  | v :: vs => pyStr v :: pyStrList vs

/-- `str()` renderings `key: value` of the entries of a JSON object. -/
def pyStrKVs : List (String × JVal) → List String
  | [] => []
  | (k, v) :: kvs => (k ++ ": " ++ pyStr v) :: pyStrKVs kvs

end

/-- Dict membership/access `d["lines"]` on the decoded JSON object. -/
def jlookup (k : String) : List (String × JVal) → Option JVal
  | [] => none
  | (k', v) :: kvs => if k' = k then some v else jlookup k kvs

/-- The scan `for k, v in response_data.items(): if isinstance(v, list):
found_list = v; break` — the first list-valued entry in key order. -/
def firstList : List (String × JVal) → Option (List JVal)
  | [] => none
  | (_, .jlist l) :: _ => some l
  | _ :: kvs => firstList kvs

/-- Lines 114–136 of `script.py`: obtain `edited_texts` from the decoded
reply.  A dict with a list under `"lines"` yields that list; a bare list
yields itself; any other dict is scanned for its first list-valued entry,
but because of `if found_list:` an empty found list counts as no find
(falsy) and raises, which the surrounding `except` turns into the
original-batch fallback; everything else raises and falls back likewise.
`none` is the fallback outcome. -/
def extractTexts : JVal → Option (List JVal)
  | .jlist l => some l
  | .jdict kvs =>
      match jlookup "lines" kvs with
      | some (.jlist l) => some l
      | _ =>
          match firstList kvs with
          | some (x :: xs) => some (x :: xs)
          | _ => none
  | _ => none

/-- Outcome of one external round trip `ollama.chat` + `json.loads`:
the call raised (`fail`), the reply was not JSON (`badJson`), or it
decoded to a value (`ok v`). -/
inductive LLMResult where
  | fail : LLMResult
  | badJson : LLMResult
  | ok : JVal → LLMResult

/-- The external model as an oracle: batch number and the batch's texts
to the outcome of the round trip. -/
def LLM : Type := Nat → List String → LLMResult

/-- Lines 86–89: `"\n".join(line["text"] for line in block["lines"])`
for each block of the batch. -/
def batchTexts (batch : List Block) : List String :=
  batch.map fun b => String.intercalate "\n" b.lines

/-- Lines 159–163: the text written back into a block for one entry of
`edited_texts` — the entry itself when it is a string, `str()` of it
otherwise. -/
def jvalToText : JVal → String
  | .jstr s => s
  | v => pyStr v

/-- Lines 154–163: the accepted-reply update loop
`for block, new_text in zip(batch, edited_texts): block["lines"] = [...]`. -/
def applyEdits (batch : List Block) (ts : List JVal) : List Block :=
  List.zipWith (fun b v => { b with lines := [jvalToText v] }) batch ts

/-- Lines 96–170 of `script.py`: the body of the batch loop for one
batch.  Call failure, undecodable JSON, unusable reply structure and a
length mismatch all leave the batch unchanged; only a decoded reply
whose extracted list has exactly the batch's length is applied. -/
def processBatch (llm : LLM) (i : Nat) (batch : List Block) : List Block :=
  match llm i (batchTexts batch) with
  | .fail => batch
  | .badJson => batch
  | .ok v =>
      match extractTexts v with
      | none => batch
      | some ts =>
          if ts.length = batch.length then applyEdits batch ts else batch

/-- Structural worker for `chunks`, driven by a fuel bound on the list
length so that it reduces definitionally. -/
def chunksF (n : Nat) : Nat → List α → List (List α)
  | 0, _ => []
  | _ + 1, [] => []
  | f + 1, x :: xs => (x :: xs.take (n - 1)) :: chunksF n f (xs.drop (n - 1))

/-- `json_blocks[i : i + BATCH_SIZE]` for `i in range(0, total, BATCH_SIZE)`:
the contiguous chunks of a list. -/
def chunks (n : Nat) (l : List α) : List (List α) := chunksF n l.length l

/-- Line 76: `BATCH_SIZE = 10`. -/
def BATCH_SIZE : Nat := 10

/-- The batch loop of lines 80–170: process the chunks in order,
numbering the external calls, and concatenate
(`all_edited_blocks.extend(batch)`). -/
def runBatches (llm : LLM) (i : Nat) : List (List Block) → List Block
  | [] => []
  | b :: bs => processBatch llm i b ++ runBatches llm (i + 1) bs

/-- `all_edited_blocks.sort(key=lambda x: x['index'])` — Python's sort is
stable, so it is the stable insertion sort on the key `index`. -/
def sortByIndex (l : List Block) : List Block :=
  List.insertionSort (fun a b => a.index ≤ b.index) l

/-- Lines 70–176 of `script.py`: `process_srt` from the block list
produced by `srt_to_json` to the block list handed to `json_to_srt` and
the writer (I/O, prints and the serialization wrappers are external). -/
def process_srt (llm : LLM) (blocks : List Block) : List Block :=
  sortByIndex (runBatches llm 0 (chunks BATCH_SIZE blocks))

theorem chunksF_flatten (n : Nat) : ∀ (f : Nat) (l : List α),
    l.length ≤ f → (chunksF n f l).flatten = l
  | 0, [], _ => rfl
  | 0, _ :: _, h => by simp at h
  | _ + 1, [], _ => rfl
  | f + 1, x :: xs, h => by
      rw [chunksF]
      have hlen : (xs.drop (n - 1)).length ≤ f := by
        simp only [List.length_drop]
        simp only [List.length_cons] at h
        omega
      simp [chunksF_flatten n f _ hlen, List.take_append_drop]

theorem chunks_flatten (n : Nat) (l : List α) : (chunks n l).flatten = l :=
  chunksF_flatten n l.length l (Nat.le_refl _)

theorem applyEdits_length (batch : List Block) (ts : List JVal)
    (h : ts.length = batch.length) : (applyEdits batch ts).length = batch.length := by
  simp [applyEdits, List.length_zipWith, h]

theorem processBatch_length (llm : LLM) (i : Nat) (batch : List Block) :
    (processBatch llm i batch).length = batch.length := by
  unfold processBatch
  cases hllm : llm i (batchTexts batch) with
  | fail => rfl
  | badJson => rfl
  | ok v =>
      cases hex : extractTexts v with
      | none => simp [hex]
      | some ts =>
          by_cases hl : ts.length = batch.length
          · simp [hex, hl, applyEdits_length _ _ hl]
          · simp [hex, hl]

theorem runBatches_length (llm : LLM) : ∀ (i : Nat) (bs : List (List Block)),
    (runBatches llm i bs).length = bs.flatten.length
  | _, [] => rfl
  | i, b :: bs => by
      simp [runBatches, processBatch_length, runBatches_length llm (i + 1) bs]

/-- C1: for every input block sequence and every behaviour of the
external model — accepted replies, shape mismatches, undecodable or
unusable replies, raised calls — the list `process_srt` hands to the
writer has exactly the length of the input list. -/
theorem c1_count_invariant (llm : LLM) (blocks : List Block) :
    (process_srt llm blocks).length = blocks.length := by
  unfold process_srt sortByIndex
  rw [List.length_insertionSort, runBatches_length, chunks_flatten]

/-- Equality of everything except the `lines` (text) field. -/
def fieldEq (a b : Block) : Prop :=
  a.index = b.index ∧ a.start = b.start ∧ a.end_ = b.end_

theorem fieldEq_refl_list : ∀ l : List Block, List.Forall₂ fieldEq l l
  | [] => List.Forall₂.nil
  | _ :: xs => List.Forall₂.cons ⟨rfl, rfl, rfl⟩ (fieldEq_refl_list xs)

theorem applyEdits_forall₂ : ∀ (batch : List Block) (ts : List JVal),
    ts.length = batch.length → List.Forall₂ fieldEq batch (applyEdits batch ts)
  | [], _, _ => List.Forall₂.nil
  | _ :: _, [], h => by simp at h
  | b :: bs, t :: ts, h =>
      List.Forall₂.cons ⟨rfl, rfl, rfl⟩
        (applyEdits_forall₂ bs ts (by simpa using h))

theorem processBatch_forall₂ (llm : LLM) (i : Nat) (batch : List Block) :
    List.Forall₂ fieldEq batch (processBatch llm i batch) := by
  unfold processBatch
  cases hllm : llm i (batchTexts batch) with
  | fail => exact fieldEq_refl_list batch
  | badJson => exact fieldEq_refl_list batch
  | ok v =>
      cases hex : extractTexts v with
      | none => simpa [hex] using fieldEq_refl_list batch
      | some ts =>
          by_cases hl : ts.length = batch.length
          · simpa [hex, hl] using applyEdits_forall₂ batch ts hl
          · simpa [hex, hl] using fieldEq_refl_list batch

theorem runBatches_forall₂ (llm : LLM) : ∀ (i : Nat) (bs : List (List Block)),
    List.Forall₂ fieldEq bs.flatten (runBatches llm i bs)
  | _, [] => List.Forall₂.nil
  | i, b :: bs => by
      simpa [runBatches] using
        List.rel_append (processBatch_forall₂ llm i b) (runBatches_forall₂ llm (i + 1) bs)

theorem forall₂_mem_right {R : Block → Block → Prop} :
    ∀ {l₁ l₂ : List Block}, List.Forall₂ R l₁ l₂ → ∀ b ∈ l₂, ∃ a ∈ l₁, R a b := by
  intro l₁ l₂ h
  induction h with
  | nil => intro b hb; cases hb
  | cons hab _ ih =>
      intro b hb
      rcases List.mem_cons.1 hb with hb | hb
      · exact ⟨_, List.mem_cons_self _ _, hb ▸ hab⟩
      · rcases ih b hb with ⟨a, ha, hR⟩
        exact ⟨a, List.mem_cons_of_mem _ ha, hR⟩

/-- The sort key ordering used by `all_edited_blocks.sort(key=...)`. -/
def idxLe (a b : Block) : Prop := a.index ≤ b.index

theorem pairwise_idxLe_of_forall₂ :
    ∀ {l₁ l₂ : List Block}, List.Forall₂ fieldEq l₁ l₂ →
      List.Pairwise idxLe l₁ → List.Pairwise idxLe l₂ := by
  intro l₁ l₂ h
  induction h with
  | nil => intro _; exact List.Pairwise.nil
  | cons hab htail ih =>
      intro hp
      rcases List.pairwise_cons.1 hp with ⟨hhead, htl⟩
      refine List.pairwise_cons.2 ⟨?_, ih htl⟩
      intro b hb
      rcases forall₂_mem_right htail b hb with ⟨a, ha, hR⟩
      have h1 : idxLe _ a := hhead a ha
      unfold idxLe at h1 ⊢
      rw [← hab.1, ← hR.1]
      exact h1

/-- C2 (amended): fix any model behaviour and any input whose `index`
keys are already in non-decreasing order — the data-model invariant of
SRT sources, under which the final defensive stable sort is the
identity.  Then the output is positionally aligned with the input:
record `i` of the output has exactly the `index`, `start` and `end` of
record `i` of the input, so only the `lines` (text) field is ever
replaced and the ordering is preserved.  (Without the ordering
hypothesis the final `sort(key=index)` can reorder, see the
counterexample.) -/
theorem c2_frame_order (llm : LLM) (blocks : List Block)
    (hsort : List.Pairwise idxLe blocks) :
    List.Forall₂ fieldEq blocks (process_srt llm blocks) := by
  have hF : List.Forall₂ fieldEq blocks (runBatches llm 0 (chunks BATCH_SIZE blocks)) := by
    have := runBatches_forall₂ llm 0 (chunks BATCH_SIZE blocks)
    rwa [chunks_flatten] at this
  have hP : List.Pairwise idxLe (runBatches llm 0 (chunks BATCH_SIZE blocks)) :=
    pairwise_idxLe_of_forall₂ hF hsort
  have hs : process_srt llm blocks = runBatches llm 0 (chunks BATCH_SIZE blocks) := by
    unfold process_srt sortByIndex
    exact List.Sorted.insertionSort_eq hP
  rw [hs]
  exact hF

/-- Witness for C2 (amended) at a concrete sorted two-record input and
the always-raising stub. -/
theorem c2_frame_order_witness :
    List.Forall₂ fieldEq
      [Block.mk 1 "00:00:01,000" "00:00:02,000" ["a"],
       Block.mk 2 "00:00:03,000" "00:00:04,000" ["b"]]
      (process_srt (fun _ _ => LLMResult.fail)
        [Block.mk 1 "00:00:01,000" "00:00:02,000" ["a"],
         Block.mk 2 "00:00:03,000" "00:00:04,000" ["b"]]) :=
  c2_frame_order (fun _ _ => LLMResult.fail) _
    (by simp [idxLe, List.pairwise_cons])

/-- C2 as literally stated is false: the final
`all_edited_blocks.sort(key=lambda x: x['index'])` reorders an input
whose indices are not in increasing order, so the output sequence does
not preserve the input ordering for every input.  Concretely, two
records with indices 2 and 1 (in that order) come out swapped even
though every external call fails and no text is touched. -/
theorem c2_order_counterexample :
    process_srt (fun _ _ => LLMResult.fail)
        [Block.mk 2 "00:00:03,000" "00:00:04,000" ["b"],
         Block.mk 1 "00:00:01,000" "00:00:02,000" ["a"]] =
      [Block.mk 1 "00:00:01,000" "00:00:02,000" ["a"],
       Block.mk 2 "00:00:03,000" "00:00:04,000" ["b"]] ∧
    [Block.mk 1 "00:00:01,000" "00:00:02,000" ["a"],
       Block.mk 2 "00:00:03,000" "00:00:04,000" ["b"]] ≠
      [Block.mk 2 "00:00:03,000" "00:00:04,000" ["b"],
       Block.mk 1 "00:00:01,000" "00:00:02,000" ["a"]] := by
  exact ⟨by decide, by decide⟩

/-- C3: the shape gate of lines 147–151.  Whenever an external reply was
decoded and a list of edited texts extracted, the batch's records
receive the model texts exactly when the extracted list has the batch's
length; any length difference, in either direction, discards the model
texts and keeps the batch unchanged. -/
theorem c3_shape_gate (llm : LLM) (i : Nat) (batch : List Block)
    (v : JVal) (ts : List JVal)
    (hllm : llm i (batchTexts batch) = LLMResult.ok v)
    (hex : extractTexts v = some ts) :
    (ts.length = batch.length → processBatch llm i batch = applyEdits batch ts) ∧
    (ts.length ≠ batch.length → processBatch llm i batch = batch) := by
  constructor
  · intro hl
    unfold processBatch
    rw [hllm]
    simp [hex, hl]
  · intro hl
    unfold processBatch
    rw [hllm]
    simp [hex, hl]

/-- Witness for C3: a two-record batch with a length-2 reply is
accepted; the same reply against a one-record batch is rejected and the
record keeps its original text. -/
theorem c3_shape_gate_witness :
    processBatch
        (fun _ _ => LLMResult.ok (JVal.jdict [("lines", JVal.jlist [JVal.jstr "x", JVal.jstr "y"])])) 0
        [Block.mk 1 "s1" "e1" ["a"], Block.mk 2 "s2" "e2" ["b"]] =
      applyEdits [Block.mk 1 "s1" "e1" ["a"], Block.mk 2 "s2" "e2" ["b"]]
        [JVal.jstr "x", JVal.jstr "y"] ∧
    processBatch
        (fun _ _ => LLMResult.ok (JVal.jdict [("lines", JVal.jlist [JVal.jstr "x", JVal.jstr "y"])])) 0
        [Block.mk 1 "s1" "e1" ["a"]] =
      [Block.mk 1 "s1" "e1" ["a"]] := by
  constructor
  · exact (c3_shape_gate
        (fun _ _ => LLMResult.ok (JVal.jdict [("lines", JVal.jlist [JVal.jstr "x", JVal.jstr "y"])])) 0
        [Block.mk 1 "s1" "e1" ["a"], Block.mk 2 "s2" "e2" ["b"]]
        (JVal.jdict [("lines", JVal.jlist [JVal.jstr "x", JVal.jstr "y"])])
        [JVal.jstr "x", JVal.jstr "y"] rfl rfl).1 (by decide)
  · exact (c3_shape_gate
        (fun _ _ => LLMResult.ok (JVal.jdict [("lines", JVal.jlist [JVal.jstr "x", JVal.jstr "y"])])) 0
        [Block.mk 1 "s1" "e1" ["a"]]
        (JVal.jdict [("lines", JVal.jlist [JVal.jstr "x", JVal.jstr "y"])])
        [JVal.jstr "x", JVal.jstr "y"] rfl rfl).2 (by decide)

/-- C5: with the external call replaced by a stub that always raises,
the pipeline writes back exactly the input records (up to the final
defensive stable sort by index): every record handed to the writer is
an unmodified input record, so its text equals its input text. -/
theorem c5_fail_stub_identity (blocks : List Block) :
    process_srt (fun _ _ => LLMResult.fail) blocks = sortByIndex blocks ∧
    ∀ b ∈ process_srt (fun _ _ => LLMResult.fail) blocks, b ∈ blocks := by
  have hrun : ∀ (i : Nat) (bs : List (List Block)),
      runBatches (fun _ _ => LLMResult.fail) i bs = bs.flatten := by
    intro i bs
    induction bs generalizing i with
    | nil => rfl
    | cons b bs ih => simp [runBatches, processBatch, ih]
  have h1 : process_srt (fun _ _ => LLMResult.fail) blocks = sortByIndex blocks := by
    unfold process_srt
    rw [hrun, chunks_flatten]
  refine ⟨h1, ?_⟩
  intro b hb
  rw [h1] at hb
  exact (List.mem_insertionSort _).1 hb

/-- C9: per-batch atomicity.  Every batch either passes through entirely
unchanged or every one of its records is rewritten with the
corresponding extracted model text — there is no path on which only part
of a batch is edited. -/
theorem c9_batch_atomicity (llm : LLM) (i : Nat) (batch : List Block) :
    processBatch llm i batch = batch ∨
      ∃ ts : List JVal, ts.length = batch.length ∧
        processBatch llm i batch =
          List.zipWith (fun b v => { b with lines := [jvalToText v] }) batch ts := by
  unfold processBatch
  cases hllm : llm i (batchTexts batch) with
  | fail => exact Or.inl rfl
  | badJson => exact Or.inl rfl
  | ok v =>
      cases hex : extractTexts v with
      | none => exact Or.inl (by simp [hex])
      | some ts =>
          by_cases hl : ts.length = batch.length
          · exact Or.inr ⟨ts, hl, by simp [hex, hl, applyEdits]⟩
          · exact Or.inl (by simp [hex, hl])

/-- C6: the code violates the non-empty-text invariant it declares
itself (`SubtitleLine.text: constr(min_length=1)` — "не пустой текст" —
with `validate_json` never invoked by `process_srt`).  An accepted reply
carrying an empty string is written through unchanged: the update loop
of lines 154–163 performs `block["lines"] = [{"text": new_text}]` with
no emptiness check, so the record handed to the writer has empty text
instead of its pre-edit text. -/
theorem c6_empty_text_written :
    process_srt
        (fun _ _ => LLMResult.ok (JVal.jdict [("lines", JVal.jlist [JVal.jstr ""])]))
        [Block.mk 1 "00:00:01,000" "00:00:02,000" ["hello"]] =
      [Block.mk 1 "00:00:01,000" "00:00:02,000" [""]] := by
  decide

/-- The reading of "the first list-valued entry in key order is used"
as the claim states it: the raw scan result, before Python's
`if found_list:` truthiness test. -/
def firstListClaimed (kvs : List (String × JVal)) : Option (List JVal) :=
  firstList kvs

/-- C10 as literally stated is false on one point: when the decoded
reply is a dict without a `"lines"` list whose first list-valued entry
is the empty list, that entry is not used.  `found_list = []` is falsy,
so `if found_list:` treats it as no find and raises, and the batch falls
back — even though a later key holds a non-empty list. -/
theorem c10_first_list_counterexample :
    firstListClaimed [("a", JVal.jlist []), ("b", JVal.jlist [JVal.jstr "x"])] =
      some [] ∧
    extractTexts (JVal.jdict [("a", JVal.jlist []), ("b", JVal.jlist [JVal.jstr "x"])]) =
      none := by
  exact ⟨rfl, rfl⟩

/-- C10 (amended): reply extraction applies the fixed ordered rule list
of lines 110–145 — a dict with a list under `"lines"` yields that list;
a bare list yields itself; any other dict yields its first list-valued
entry in key order provided that entry is non-empty (an empty found
list is falsy under `if found_list:` and counts as no match); everything
else, and a reply on which `json.loads` fails, leaves the batch on its
original texts, never raising out of the batch loop. -/
theorem c10_extraction_rules (kvs : List (String × JVal)) (l : List JVal)
    (v : JVal) (llm : LLM) (i : Nat) (batch : List Block)
    (s : String) (n : Int) (b : Bool) :
    (jlookup "lines" kvs = some (JVal.jlist l) →
      extractTexts (JVal.jdict kvs) = some l) ∧
    (extractTexts (JVal.jlist l) = some l) ∧
    ((∀ l', jlookup "lines" kvs ≠ some (JVal.jlist l')) →
      extractTexts (JVal.jdict kvs) =
        match firstList kvs with
        | some (x :: xs) => some (x :: xs)
        | _ => none) ∧
    (extractTexts (JVal.jstr s) = none ∧ extractTexts (JVal.jnum n) = none ∧
      extractTexts (JVal.jbool b) = none ∧ extractTexts JVal.jnull = none) ∧
    (llm i (batchTexts batch) = LLMResult.badJson →
      processBatch llm i batch = batch) ∧
    (llm i (batchTexts batch) = LLMResult.ok v → extractTexts v = none →
      processBatch llm i batch = batch) := by
  refine ⟨?_, rfl, ?_, ⟨rfl, rfl, rfl, rfl⟩, ?_, ?_⟩
  · intro h
    simp only [extractTexts]
    rw [h]
  · intro h
    simp only [extractTexts]
  · intro h
    unfold processBatch
    rw [h]
  · intro h hex
    unfold processBatch
    rw [h]
    simp [hex]

/-- Witness for C10 (amended) at concrete replies: a `"lines"` dict, a
dict without `"lines"` whose first list entry is non-empty, an
undecodable reply, and a scalar reply. -/
theorem c10_extraction_rules_witness :
    extractTexts (JVal.jdict [("lines", JVal.jlist [JVal.jstr "u"])]) =
      some [JVal.jstr "u"] ∧
    extractTexts (JVal.jdict [("k", JVal.jstr "c"), ("r", JVal.jlist [JVal.jstr "v"])]) =
      some [JVal.jstr "v"] ∧
    processBatch (fun _ _ => LLMResult.badJson) 0 [Block.mk 1 "s" "e" ["t"]] =
      [Block.mk 1 "s" "e" ["t"]] ∧
    processBatch (fun _ _ => LLMResult.ok (JVal.jstr "w")) 0 [Block.mk 1 "s" "e" ["t"]] =
      [Block.mk 1 "s" "e" ["t"]] := by
  refine ⟨?_, ?_, ?_, ?_⟩
  · exact (c10_extraction_rules [("lines", JVal.jlist [JVal.jstr "u"])]
      [JVal.jstr "u"] JVal.jnull (fun _ _ => LLMResult.fail) 0 [] "" 0 true).1 rfl
  · exact (c10_extraction_rules [("k", JVal.jstr "c"), ("r", JVal.jlist [JVal.jstr "v"])]
      [] JVal.jnull (fun _ _ => LLMResult.fail) 0 [] "" 0 true).2.2.1
      (by intro l' h; simp [jlookup] at h)
  · exact (c10_extraction_rules [] [] JVal.jnull (fun _ _ => LLMResult.badJson) 0
      [Block.mk 1 "s" "e" ["t"]] "" 0 true).2.2.2.2.1 rfl
  · exact (c10_extraction_rules [] [] (JVal.jstr "w") (fun _ _ => LLMResult.ok (JVal.jstr "w")) 0
      [Block.mk 1 "s" "e" ["t"]] "" 0 true).2.2.2.2.2 rfl rfl

/-
Part 2 — components the design document specifies that are not part of
`src/script.py` (they belong to the other drafts of the repository):
the line-numbered Reply Parser and the tiered Retry/Splitting
Orchestrator with its unconditional pre-call delay.  They are modelled
from the design document's own words and verified against it.
-/

/-- Modelled from the spec: Python `str.strip()` as used by the Reply
Parser of the non-structured-output drafts ("capture the remainder
(trimmed)"), on the character list of one line. -/
def trimChars (cs : List Char) : List Char :=
  ((cs.dropWhile Char.isWhitespace).reverse.dropWhile Char.isWhitespace).reverse

/-- Modelled from the spec: the per-line grammar of the Reply Parser,
absent from `src/script.py` — "line matches `^\d+[.)]\s*(.*)$`, capture
group 1, else discard line": a non-empty run of digits, then `.` or
`)`, then optional whitespace, then the trimmed remainder. -/
def matchChars (cs : List Char) : Option (List Char) :=
  if (cs.takeWhile Char.isDigit).isEmpty then none
  else
    match cs.dropWhile Char.isDigit with
    | c :: rest =>
        if c = '.' ∨ c = ')' then
          some (trimChars (rest.dropWhile Char.isWhitespace))
        else none
    | [] => none

/-- Modelled from the spec: the line matcher lifted to strings. -/
def match_line (s : String) : Option String :=
  (matchChars s.data).map fun cs => String.mk cs

/-- Modelled from the spec: the Reply Parser of the drafts outside
`src/script.py` — "split the reply into lines; for each line, attempt to
match a leading numeral followed by `.` or `)` and optional whitespace;
if matched, capture the remainder (trimmed) as one output entry in line
order; unmatched lines are discarded". -/
def parse_reply (s : String) : List String :=
  (s.splitOn "\n").filterMap match_line

theorem dropWhile_idem (p : Char → Bool) :
    ∀ l : List Char, (l.dropWhile p).dropWhile p = l.dropWhile p
  | [] => rfl
  | c :: cs => by
      by_cases h : p c
      · simp [List.dropWhile_cons, h, dropWhile_idem p cs]
      · simp [List.dropWhile_cons, h]

theorem trimChars_dropWhile (l : List Char) :
    trimChars (l.dropWhile Char.isWhitespace) = trimChars l := by
  unfold trimChars
  rw [dropWhile_idem]

theorem takeWhile_append_of_all (p : Char → Bool) :
    ∀ (d : List Char) (c : Char) (rest : List Char), (∀ x ∈ d, p x) → ¬ p c →
      ((d ++ c :: rest).takeWhile p = d ∧ (d ++ c :: rest).dropWhile p = c :: rest)
  | [], c, rest, _, hc => by simp [List.takeWhile_cons, List.dropWhile_cons, hc]
  | x :: d, c, rest, hd, hc => by
      have hx : p x = true := hd x (List.mem_cons_self x d)
      have ih := takeWhile_append_of_all p d c rest (fun y hy => hd y (List.mem_cons_of_mem x hy)) hc
      simp [List.takeWhile_cons, List.dropWhile_cons, hx, ih.1, ih.2]

/-- C7 (spec-modelled): the Reply Parser splits the reply into lines and
emits, in line order, exactly the trimmed remainder of each line that
begins with a non-empty numeral followed by `.` or `)` and optional
whitespace; every non-matching line (including any line not starting
with a digit, and the empty line) is discarded, and the output is never
longer than the number of lines — a degenerate reply yields a shorter or
empty sequence, never an exception. -/
theorem c7_reply_parsing :
    (∀ s : String, parse_reply s = (s.splitOn "\n").filterMap match_line) ∧
    (∀ (d rest : List Char) (sep : Char), d ≠ [] → (∀ c ∈ d, c.isDigit) →
      (sep = '.' ∨ sep = ')') →
      match_line (String.mk (d ++ sep :: rest)) = some (String.mk (trimChars rest))) ∧
    (∀ (c : Char) (cs : List Char), ¬ c.isDigit →
      match_line (String.mk (c :: cs)) = none) ∧
    (match_line (String.mk []) = none) ∧
    (∀ s : String, (parse_reply s).length ≤ (s.splitOn "\n").length) := by
  refine ⟨fun s => rfl, ?_, ?_, rfl, ?_⟩
  · intro d rest sep hd hdig hsep
    have hnd : ¬ Char.isDigit sep := by
      rcases hsep with h | h <;> rw [h] <;> decide
    have h := takeWhile_append_of_all Char.isDigit d sep rest hdig hnd
    unfold match_line matchChars
    simp only [String.data]
    rw [h.1, h.2]
    have hne : d.isEmpty = false := by
      cases d with
      | nil => exact absurd rfl hd
      | cons a as => rfl
    simp [hne, hsep, trimChars_dropWhile]
  · intro c cs hc
    unfold match_line matchChars
    simp only [String.data]
    simp [List.takeWhile_cons, hc]
  · intro s
    exact List.length_filterMap_le _ _

/-- Witness for C7 at the concrete line `"12. hi "` (digits `12`,
separator `.`, remainder `" hi "` trimmed to `"hi"`). -/
theorem c7_reply_parsing_witness :
    match_line (String.mk ['1', '2', '.', ' ', 'h', 'i', ' ']) =
      some (String.mk ['h', 'i']) :=
  c7_reply_parsing.2.1 ['1', '2'] [' ', 'h', 'i', ' '] '.'
    (by decide) (by decide) (Or.inl rfl)

/-- Modelled from the spec: a SubtitleRecord of the data model
(`index`, `start`, `end`, `text`) as handled by the Retry/Splitting
Orchestrator of the most-evolved draft, which is not in `src/script.py`. -/
structure SRec where
  index : Int
  start : String
  end_ : String
  text : String
deriving DecidableEq

/-- Observable events of the orchestrator: the fixed inter-request
sleep, and one external LLM round trip. -/
inductive Ev where
  | delay : Ev
  | call : Ev
deriving DecidableEq

/-- The texts of a window, as sent in one request. -/
def wtexts (w : List SRec) : List String := w.map SRec.text

/-- Modelled from the spec: the Shape Validator — "accept iff `L == M`",
applied to the parsed reply of one attempt (`none` is a failed or
unparsable call). -/
def shape_validator (r : Option (List String)) (w : List SRec) : Option (List String) :=
  match r with
  | some ts => if ts.length = w.length then some ts else none
  | none => none

/-- Write an accepted reply's texts into the window's records. -/
def applyTexts (w : List SRec) (ts : List String) : List SRec :=
  List.zipWith (fun r t => { r with text := t }) w ts

/-- Modelled from the spec: the leaf tier of the Retry/Splitting
Orchestrator — "at the smallest (leaf) tier, allow up to K attempts of
the same sub-window before giving up", with the fallback rule (keep the
original records) once the budget is exhausted, and the unconditional
delay before every call.  `b` is the remaining budget, `a` the attempt
number handed to the oracle; the trace records the emitted events. -/
def leaf_attempts (orac : Nat → List String → Option (List String)) (w : List SRec) :
    Nat → Nat → List SRec × List Ev
  | 0, _ => (w, [])
  | b + 1, a =>
      match shape_validator (orac a (wtexts w)) w with
      | some ts => (applyTexts w ts, [Ev.delay, Ev.call])
      | none =>
          let r := leaf_attempts orac w b (a + 1)
          (r.1, Ev.delay :: Ev.call :: r.2)

/-- Modelled from the spec: the Retry/Splitting Orchestrator of the
most-evolved draft, absent from `src/script.py` — attempt the window
once at the current tier; on acceptance record results and stop; on
rejection partition the window into contiguous sub-windows of the next
tier's size and recurse independently on each; at the leaf tier allow up
to `K` attempts; a fixed delay precedes every external call.  The
descending tier sizes are configuration (`tiers`). -/
def orchestrator (orac : Nat → List String → Option (List String)) (K : Nat) :
    (tiers : List Nat) → List SRec → List SRec × List Ev
  | [], w => (w, [])
  | [_], w => leaf_attempts orac w K 0
  | _ :: t' :: rest, w =>
      match shape_validator (orac 0 (wtexts w)) w with
      | some ts => (applyTexts w ts, [Ev.delay, Ev.call])
      | none =>
          let subs := (chunks t' w).map fun sub => orchestrator orac K (t' :: rest) sub
          ((subs.map Prod.fst).flatten, Ev.delay :: Ev.call :: (subs.map Prod.snd).flatten)
termination_by tiers => tiers.length

theorem leaf_attempts_fail (orac : Nat → List String → Option (List String))
    (w : List SRec) (hfail : ∀ a, shape_validator (orac a (wtexts w)) w = none) :
    ∀ (b a : Nat), leaf_attempts orac w b a = (w, (List.replicate b [Ev.delay, Ev.call]).flatten)
  | 0, _ => rfl
  | b + 1, a => by
      rw [leaf_attempts, hfail a, leaf_attempts_fail orac w hfail b (a + 1)]
      simp [List.replicate_succ]

/-- C4 (spec-modelled): when a window's reply is rejected by the shape
check at a non-leaf tier, the orchestrator partitions the window into
contiguous sub-windows of the next tier's size (they concatenate back to
the window) and re-requests each sub-window independently; and at the
leaf tier it attempts the same sub-window up to `K ≥ 1` times — with a
permanently failing oracle it performs exactly `K` delayed calls before
falling back to the originals, and with an oracle that fails the first
attempt but is accepted on the second (K = 2) it delivers the edited
texts rather than falling back after the first failure. -/
theorem c4_split_and_leaf_retry :
    (∀ (orac : Nat → List String → Option (List String)) (K t t' : Nat)
        (rest : List Nat) (w : List SRec),
        shape_validator (orac 0 (wtexts w)) w = none →
        orchestrator orac K (t :: t' :: rest) w =
          (((chunks t' w).map fun sub => (orchestrator orac K (t' :: rest) sub).1).flatten,
            Ev.delay :: Ev.call ::
              ((chunks t' w).map fun sub => (orchestrator orac K (t' :: rest) sub).2).flatten)) ∧
    (∀ (t' : Nat) (w : List SRec), (chunks t' w).flatten = w) ∧
    (∀ (orac : Nat → List String → Option (List String)) (K t : Nat) (w : List SRec),
        1 ≤ K → (∀ a, shape_validator (orac a (wtexts w)) w = none) →
        orchestrator orac K [t] w = (w, (List.replicate K [Ev.delay, Ev.call]).flatten)) ∧
    (∀ (orac : Nat → List String → Option (List String)) (t : Nat) (w : List SRec)
        (ts : List String),
        shape_validator (orac 0 (wtexts w)) w = none →
        shape_validator (orac 1 (wtexts w)) w = some ts →
        (orchestrator orac 2 [t] w).1 = applyTexts w ts) := by
  refine ⟨?_, ?_, ?_, ?_⟩
  · intro orac K t t' rest w h
    rw [orchestrator, h]
    simp only [List.map_map, Prod.mk.injEq]
    exact ⟨rfl, rfl⟩
  · intro t' w
    exact chunks_flatten t' w
  · intro orac K t w _ hfail
    rw [orchestrator]
    exact leaf_attempts_fail orac w hfail K 0
  · intro orac t w ts h0 h1
    rw [orchestrator]
    rw [leaf_attempts, h0]
    simp only []
    rw [leaf_attempts, h1]

/-- Witness for C4 at concrete two-record windows: a permanently failing
oracle exhausts exactly the leaf budget 2 and falls back to the
originals, and an oracle accepted on the second attempt gets its texts
applied. -/
theorem c4_split_and_leaf_retry_witness :
    orchestrator (fun _ _ => none) 2 [1]
        [SRec.mk 1 "s1" "e1" "x", SRec.mk 2 "s2" "e2" "y"] =
      ([SRec.mk 1 "s1" "e1" "x", SRec.mk 2 "s2" "e2" "y"],
        (List.replicate 2 [Ev.delay, Ev.call]).flatten) ∧
    (orchestrator (fun a _ => if a = 0 then none else some ["u", "v"]) 2 [1]
        [SRec.mk 1 "s1" "e1" "x", SRec.mk 2 "s2" "e2" "y"]).1 =
      applyTexts [SRec.mk 1 "s1" "e1" "x", SRec.mk 2 "s2" "e2" "y"] ["u", "v"] := by
  constructor
  · exact c4_split_and_leaf_retry.2.2.1 (fun _ _ => none) 2 1
      [SRec.mk 1 "s1" "e1" "x", SRec.mk 2 "s2" "e2" "y"] (by decide) (fun a => rfl)
  · exact c4_split_and_leaf_retry.2.2.2 (fun a _ => if a = 0 then none else some ["u", "v"]) 1
      [SRec.mk 1 "s1" "e1" "x", SRec.mk 2 "s2" "e2" "y"] ["u", "v"] rfl rfl

/-- Every `call` event in a trace is immediately preceded by a `delay`
event. -/
def DelayBeforeCall (tr : List Ev) : Prop :=
  ∀ i : Nat, tr[i]? = some Ev.call → ∃ j, i = j + 1 ∧ tr[j]? = some Ev.delay

theorem delayBeforeCall_nil : DelayBeforeCall [] := by
  intro i hi
  simp at hi

theorem delayBeforeCall_pair : DelayBeforeCall [Ev.delay, Ev.call] := by
  intro i hi
  match i with
  | 0 => simp at hi
  | 1 => exact ⟨0, rfl, rfl⟩
  | n + 2 => simp at hi

theorem delayBeforeCall_append {t₁ t₂ : List Ev}
    (h₁ : DelayBeforeCall t₁) (h₂ : DelayBeforeCall t₂) :
    DelayBeforeCall (t₁ ++ t₂) := by
  intro i hi
  by_cases hlt : i < t₁.length
  · rw [List.getElem?_append_left hlt] at hi
    rcases h₁ i hi with ⟨j, hij, hj⟩
    refine ⟨j, hij, ?_⟩
    rw [List.getElem?_append_left (by omega)]
    exact hj
  · push_neg at hlt
    rw [List.getElem?_append_right hlt] at hi
    rcases h₂ (i - t₁.length) hi with ⟨j, hij, hj⟩
    refine ⟨t₁.length + j, by omega, ?_⟩
    rw [List.getElem?_append_right (by omega)]
    simpa using hj

theorem delayBeforeCall_flatten :
    ∀ {ll : List (List Ev)}, (∀ t ∈ ll, DelayBeforeCall t) →
      DelayBeforeCall ll.flatten
  | [], _ => delayBeforeCall_nil
  | t :: ll, h => by
      rw [List.flatten_cons]
      exact delayBeforeCall_append (h t (List.mem_cons_self t ll))
        (delayBeforeCall_flatten fun u hu => h u (List.mem_cons_of_mem t hu))

theorem leaf_attempts_delay (orac : Nat → List String → Option (List String))
    (w : List SRec) : ∀ (b a : Nat), DelayBeforeCall (leaf_attempts orac w b a).2
  | 0, _ => delayBeforeCall_nil
  | b + 1, a => by
      rw [leaf_attempts]
      cases h : shape_validator (orac a (wtexts w)) w with
      | some ts => exact delayBeforeCall_pair
      | none =>
          exact delayBeforeCall_append delayBeforeCall_pair
            (leaf_attempts_delay orac w b (a + 1))

/-- C8 (spec-modelled): in every trace the orchestrator can produce —
any oracle, any tier configuration, any leaf budget, any window,
including every retry and every sub-window call of the splitting
cascade — each external call event is immediately preceded by the fixed
inter-request delay event; no call happens without the delay before
it. -/
theorem c8_delay_before_every_call (orac : Nat → List String → Option (List String))
    (K : Nat) (tiers : List Nat) (w : List SRec) :
    DelayBeforeCall (orchestrator orac K tiers w).2 := by
  induction tiers generalizing w with
  | nil =>
      rw [orchestrator]
      exact delayBeforeCall_nil
  | cons t rest ih =>
      cases rest with
      | nil =>
          rw [orchestrator]
          exact leaf_attempts_delay orac w K 0
      | cons t' rest' =>
          rw [orchestrator]
          cases h : shape_validator (orac 0 (wtexts w)) w with
          | some ts => exact delayBeforeCall_pair
          | none =>
              have : DelayBeforeCall
                  ((((chunks t' w).map fun sub => orchestrator orac K (t' :: rest') sub).map
                    Prod.snd).flatten) := by
                apply delayBeforeCall_flatten
                intro u hu
                rcases List.mem_map.1 hu with ⟨pr, hpr, rfl⟩
                rcases List.mem_map.1 hpr with ⟨sub, _, rfl⟩
                exact ih sub
              exact delayBeforeCall_append delayBeforeCall_pair this

/-- Witness for C8 at a concrete run: a failing oracle over tiers
`[2, 1]` with leaf budget 2 on a two-record window. -/
theorem c8_delay_before_every_call_witness :
    DelayBeforeCall
      (orchestrator (fun _ _ => none) 2 [2, 1]
        [SRec.mk 1 "s1" "e1" "x", SRec.mk 2 "s2" "e2" "y"]).2 :=
  c8_delay_before_every_call (fun _ _ => none) 2 [2, 1]
    [SRec.mk 1 "s1" "e1" "x", SRec.mk 2 "s2" "e2" "y"]

end SrtPipeline
